import Mathlib

/-!
# imgui_rosmon: the rosmon status panel (`src/gui.cpp`)

A shallow embedding of the panel's data-size formatter, its retained state
(`m_topic`, `m_base`, `m_nodes`, `m_stamp`, `m_sub`) and the operations
`subscribe`, `setState`, `handleState`, `paint` and `sendCommand`, followed by
the properties proved about them.

Conventions
* `std::string` is a list of bytes (`CxxString`); `operator<` is the byte-wise
  lexicographic comparison of `std::string::compare`.
* `std::uint64_t` values are natural numbers below `2 ^ 64`.
* `ros::Time` is a pair `sec`/`nsec`; a `ros::Duration` is the normalised pair
  obtained from the signed nanosecond difference, and exists only when its
  seconds fit the signed 32-bit field.
-/

namespace ImguiRosmon

/-! ## Strings -/

/-- One `char` of a `std::string`, seen as an unsigned byte. -/
abbrev Byte := Fin 256

/-- A `std::string`: a finite sequence of bytes. -/
abbrev CxxString := List Byte

/-- The bytes of an ASCII literal. -/
def bytes (s : String) : CxxString :=
  s.toList.map (fun c => Fin.ofNat c.toNat)

/-- The comparison `std::string::operator<`: the first differing byte decides
(compared as unsigned bytes, as `char_traits<char>::compare` does); when one
string is an initial segment of the other, the shorter one is smaller. -/
def strLt : CxxString → CxxString → Bool
  | [], [] => false
  | [], _ :: _ => true
  | _ :: _, [] => false
  | a :: as, b :: bs =>
    if a < b then true else if b < a then false else strLt as bs

/-! ## `formattedDataSize` -/

/-- Number of zero bits above the highest set bit among the low `i` bits of `v`
(`i` when none of them is set). -/
def clzAux : Nat → Nat → Nat
  | 0, _ => 0
  | i + 1, v => if v / 2 ^ i % 2 = 1 then 0 else 1 + clzAux i v

/-- The helper `countLeadingZeroBits`: `__builtin_clzll` on a 64-bit value.
The builtin is undefined at `0`; the source never calls it there (the model
yields `64`). -/
def countLeadingZeroBits (v : Nat) : Nat := clzAux 64 v

/-- The `power` computed at the top of `formattedDataSize`:
`0` for a zero byte count, else `(63 - clz(bytes)) / 10`. -/
def dataSizePower (bytes : Nat) : Nat :=
  if bytes = 0 then 0 else (63 - countLeadingZeroBits bytes) / 10

/-- The `base` chosen alongside `power`: `1000` is kept for a zero byte
count, `1024` otherwise. -/
def dataSizeBase (bytes : Nat) : Nat :=
  if bytes = 0 then 1000 else 1024

/-- The unit selection of `formattedDataSize`: `"?"` is the initial value,
overwritten by the `switch` for `power` in `1..6` and by `"B"` when
`power` is not positive. -/
def dataSizeUnit (power : Nat) : String :=
  if power > 0 then
    match power with
    | 1 => "KiB"
    | 2 => "MiB"
    | 3 => "GiB"
    | 4 => "TiB"
    | 5 => "PiB"
    | 6 => "EiB"
    | _ => "?"
  else "B"

/-- Conversion `std::uint64_t -> double` (IEEE 754 binary64, round to nearest,
ties to even). The result is an integer and is returned as such: values below
`2 ^ 53` are exact, larger ones keep their 53 leading bits. -/
def toDouble (bytes : Nat) : Nat :=
  if bytes < 2 ^ 53 then bytes
  else
    let sh := (63 - countLeadingZeroBits bytes) - 52
    let q := bytes / 2 ^ sh
    let r := bytes % 2 ^ sh
    let half := 2 ^ (sh - 1)
    let q' := if r > half ∨ (r = half ∧ q % 2 = 1) then q + 1 else q
    q' * 2 ^ sh

/-- The value `val` of `formattedDataSize` as an exact fraction
`(numerator, denominator)`: `double(bytes) / pow(double(base), power)` when
`power` is non-zero, `double(bytes)` otherwise. The divisor is a power of two
and the quotient lies in `[1, 1024]`, so the binary64 division is exact. -/
def dataSizeVal (bytes : Nat) : Nat × Nat :=
  let power := dataSizePower bytes
  if power ≠ 0 then (toDouble bytes, dataSizeBase bytes ^ power)
  else (toDouble bytes, 1)

/-- Nearest integer to `n / d`, ties to the even neighbour. -/
def roundHalfEven (n d : Nat) : Nat :=
  let q := n / d
  let r := n % d
  if 2 * r < d then q
  else if 2 * r > d then q + 1
  else if q % 2 = 0 then q else q + 1

/-- The integer `N` such that the text printed by `{:.{}f}` for the value
`n / d` with `precision` decimals denotes `N / 10 ^ precision`. -/
def fixedScaled (n d precision : Nat) : Nat :=
  roundHalfEven (n * 10 ^ precision) d

/-- Decimal digits of `k`, left-padded with `0` to at least `width` characters. -/
def padDigits (width k : Nat) : String :=
  let s := Nat.repr k
  String.mk (List.replicate (width - s.length) '0') ++ s

/-- Fixed-point text of the number `scaled / 10 ^ precision`: integer part,
and, for a positive precision, a point followed by exactly `precision` digits. -/
def renderFixed (scaled precision : Nat) : String :=
  let ip := Nat.repr (scaled / 10 ^ precision)
  if precision = 0 then ip
  else ip ++ "." ++ padDigits precision (scaled % 10 ^ precision)

/-- Text of `fmt::format("{:.{}f}", n / d, precision)` for a non-negative
value `n / d`: the value is rounded to the nearest multiple of
`10 ^ -precision` and printed in fixed-point notation. -/
def formatFixed (n d precision : Nat) : String :=
  renderFixed (fixedScaled n d precision) precision

/-- The function `formattedDataSize(bytes, precision)` for a non-negative
precision: `fmt::format("{:.{}f} {}", val, precision, unit)`. -/
def formattedDataSize (bytes precision : Nat) : String :=
  let power := dataSizePower bytes
  let unit := dataSizeUnit power
  let val := dataSizeVal bytes
  formatFixed val.1 val.2 precision ++ " " ++ unit

/-- The unit of a formatted size: the text behind its first space. -/
def unitOf (s : String) : String :=
  String.mk ((s.data.dropWhile (fun c => c != ' ')).drop 1)

/-- The number text of a formatted size: the text in front of its first space. -/
def numberOf (s : String) : String :=
  String.mk (s.data.takeWhile (fun c => c != ' '))

/-- The number `N / 10 ^ P` is a nearest multiple of `10 ^ -P` to `n / d`: the
two differ by at most half a unit in the last printed place. -/
def RoundsTo (N n d P : Nat) : Prop :=
  2 * (N * d) ≤ 2 * (n * 10 ^ P) + d ∧ 2 * (n * 10 ^ P) ≤ 2 * (N * d) + d

/-! ## Time -/

/-- The type `ros::Time`: seconds and nanoseconds since the epoch. -/
structure Time where
  sec : Nat
  nsec : Nat
  deriving DecidableEq

/-- The value `ros::Time(0)`, also the default-constructed `ros::Time`. -/
def Time.zero : Time := ⟨0, 0⟩

/-- The method `ros::Time::toNSec`. -/
def Time.toNSec (t : Time) : Nat := t.sec * 1000000000 + t.nsec

/-- The type `ros::Duration`: signed seconds and nanoseconds, kept normalised
(`0 <= nsec < 10^9`). Both fields are signed 32-bit integers in the library. -/
structure Duration where
  sec : Int
  nsec : Int
  deriving DecidableEq

/-- The range test of `ros::Duration::fromNSec`: the whole seconds of the
nanosecond count, rounded down, lie between `INT32_MIN` and `INT32_MAX`. -/
def Duration.fits (t : Int) : Bool :=
  decide (-2147483648 ≤ t / 1000000000 ∧ t / 1000000000 ≤ 2147483647)

/-- The method `ros::Duration::fromNSec`: the normalised pair of a signed
nanosecond count, or `none` where the library raises "Duration is out of dual
32-bit range" because the seconds do not fit. -/
def Duration.fromNSec (t : Int) : Option Duration :=
  if Duration.fits t then some ⟨t / 1000000000, t % 1000000000⟩ else none

/-- The operator `ros::Time::operator-`: the signed difference of two time
points, `none` when no `ros::Duration` holds it. -/
def Time.sub (a b : Time) : Option Duration :=
  Duration.fromNSec ((a.toNSec : Int) - (b.toNSec : Int))

/-- The operator `ros::Duration::operator>`: seconds first, then nanoseconds. -/
def Duration.gt (a b : Duration) : Bool :=
  decide (a.sec > b.sec) || (decide (a.sec = b.sec) && decide (a.nsec > b.nsec))

/-- The value `ros::Duration(5.0)`, the staleness threshold of `paint`. -/
def staleAfter : Duration := ⟨5, 0⟩

/-! ## Messages and the panel state -/

/-- The message `rosmon_msgs::NodeState`. The two load values are only carried
along and are kept as the bit patterns of their `float32` fields. -/
structure NodeState where
  name : CxxString
  ns : CxxString
  state : Nat
  restart_count : Nat
  user_load : Nat
  system_load : Nat
  memory : Nat
  deriving DecidableEq

/-- The message `rosmon_msgs::State`: the header stamp and the node entries. -/
structure State where
  stamp : Time
  nodes : List NodeState
  deriving DecidableEq

/-- The record `GUI::Node`. -/
structure Node where
  nodeState : NodeState
  fullName : CxxString
  memory : String
  deriving DecidableEq

/-- The constructor `Node(const rosmon_msgs::NodeState&)`. -/
def Node.ofState (st : NodeState) : Node :=
  { nodeState := st
    fullName := st.ns ++ bytes "/" ++ st.name
    memory := formattedDataSize st.memory 2 }

/-- The comparison `Node::operator<`. -/
def Node.lt (a b : Node) : Bool := strLt a.fullName b.fullName

/-- One insertion step of the sort: `x` is placed in front of the first
element that is greater than it, behind every element that is not. -/
def linearInsert (x : Node) : List Node → List Node
  | [] => [x]
  | e :: es => if Node.lt x e then x :: e :: es else e :: linearInsert x es

/-- The call `std::sort(m_nodes.begin(), m_nodes.end())` with
`Node::operator<`, realised as insertion sort: each element in turn is
inserted into the sorted range in front of it. The library leaves the
algorithm open; what it guarantees, and what the properties below rest on, is
that the result is a rearrangement of the input in non-decreasing order. -/
def stdSort (l : List Node) : List Node :=
  l.foldl (fun acc x => linearInsert x acc) []

/-- The data members of `GUI`. `m_sub` holds the topic of the active
subscription, `none` for an empty `ros::Subscriber`. -/
structure GUI where
  m_topic : CxxString
  m_base : CxxString
  m_nodes : List Node
  m_stamp : Time
  m_sub : Option CxxString
  deriving DecidableEq

/-- The freshly constructed panel. -/
def GUI.init : GUI :=
  { m_topic := [], m_base := [], m_nodes := [], m_stamp := Time.zero, m_sub := none }

/-- The constant `suffix` of `subscribe`. -/
def suffix : CxxString := bytes "/state"

/-- The method `GUI::subscribe`. The diagnostic printed for a rejected topic
is not part of the state and is left out. -/
def subscribe (g : GUI) : GUI :=
  let g := { g with m_sub := none, m_nodes := [], m_stamp := Time.zero }
  if g.m_topic.isEmpty then g
  else if g.m_topic.length < suffix.length
      ∨ g.m_topic.drop (g.m_topic.length - suffix.length) ≠ suffix then g
  else
    { g with
      m_base := g.m_topic.take (g.m_topic.length - suffix.length)
      m_sub := some g.m_topic }

/-- The callback `GUI::handleState`: the list is cleared, one `Node` is
appended per entry of the message, the list is sorted, and the stamp is taken
over. -/
def handleState (g : GUI) (state : State) : GUI :=
  { g with
    m_nodes := stdSort (state.nodes.map Node.ofState)
    m_stamp := state.stamp }

/-- The type `imgui_ros::Settings`: key/value pairs. -/
abbrev Settings := List (CxxString × CxxString)

/-- The lookup `Settings::get`. -/
def Settings.get (s : Settings) (key : CxxString) : Option CxxString :=
  (s.find? (fun kv => kv.1 = key)).map (fun kv => kv.2)

/-- The method `GUI::setState`. -/
def setState (g : GUI) (settings : Settings) : GUI :=
  match Settings.get settings (bytes "topic") with
  | some var => subscribe { g with m_topic := var }
  | none => g

/-- The condition tested at the top of the table code of `paint`:
`m_stamp != ros::Time(0)`. -/
def hasData (g : GUI) : Bool := decide (g.m_stamp ≠ Time.zero)

/-- What `paint` draws below the topic selector: the text "No message", the
table, or nothing at all when the subtraction `now - m_stamp` raises and the
exception leaves `paint`. -/
inductive View where
  | noMessage
  | table (disabled : Bool) (rows : List Node)
  | outOfRange
  deriving DecidableEq

/-- The method `GUI::paint`: the topic selector, then the choice between
"No message" and the table, whose `disabled` flag is the argument of
`BeginDisabled`. `selected` is the topic written into `m_topic` when the topic
selector reports a change, `now` the value of `ros::Time::now()`. The widgets
of the rows are not modelled. -/
def paint (g : GUI) (selected : Option CxxString) (now : Time) : GUI × View :=
  let g := match selected with
    | some t => subscribe { g with m_topic := t }
    | none => g
  if g.m_stamp = Time.zero then (g, View.noMessage)
  else
    match Time.sub now g.m_stamp with
    | some d => (g, View.table (Duration.gt d staleAfter) g.m_nodes)
    | none => (g, View.outOfRange)

/-- The table is drawn and is not disabled. -/
def View.enabled : View → Bool
  | View.table false _ => true
  | _ => false

/-! ## Commands -/

/-- Modelled from the spec: the action codes of the command request, Start = 1,
Stop = 2 and Restart = 3. The constants `rosmon_msgs::StartStop::Request::START`,
`STOP` and `RESTART` that `paint` passes to `sendCommand` are declared outside
the source. -/
inductive ActionCode where
  | START
  | STOP
  | RESTART
  deriving DecidableEq

/-- The integer value of an action code. -/
def ActionCode.toInt : ActionCode → Int
  | ActionCode.START => 1
  | ActionCode.STOP => 2
  | ActionCode.RESTART => 3

/-- The request `rosmon_msgs::StartStop::Request`; `action` holds the code
assigned to it. -/
structure Request where
  action : Int
  node : CxxString
  ns : CxxString
  deriving DecidableEq

/-- One invocation of `ros::service::call`. -/
structure ServiceCall where
  address : CxxString
  request : Request
  deriving DecidableEq

/-- The observable effects of `sendCommand`: the service calls made so far and
the popups opened so far, oldest first. -/
structure Effects where
  calls : List ServiceCall
  popups : List String
  deriving DecidableEq

/-- The command channel: whether a call succeeds, given the calls made
before it. -/
abbrev Channel := List ServiceCall → ServiceCall → Bool

/-- The method `GUI::sendCommand`. -/
def sendCommand (chan : Channel) (g : GUI) (n : Node) (action : Int) (w : Effects) :
    Effects :=
  let srv : Request := { action := action, node := n.nodeState.name, ns := n.nodeState.ns }
  let c : ServiceCall := { address := g.m_base ++ bytes "/start_stop", request := srv }
  let w1 : Effects := { w with calls := w.calls ++ [c] }
  if !chan w.calls c then { w1 with popups := w1.popups ++ ["Service Failure"] }
  else w1

/-! ## Event traces -/

/-- What can happen to the panel: a frame is painted (with or without a topic
selection), the host restores settings, or the transport delivers a message. -/
inductive Event where
  | paint (selected : Option CxxString) (now : Time)
  | setState (settings : Settings)
  | deliver (msg : State)

/-- One event. The transport invokes `handleState` only for an active
subscription. -/
def step (g : GUI) : Event → GUI
  | Event.paint selected now => (paint g selected now).1
  | Event.setState settings => setState g settings
  | Event.deliver msg => if g.m_sub.isSome then handleState g msg else g

/-- The panel after a sequence of events, starting from the constructed panel. -/
def run (evs : List Event) : GUI := evs.foldl step GUI.init

/-- The event is a message delivery. -/
def Event.isDeliver : Event → Bool
  | Event.deliver _ => true
  | _ => false

/-! ## Auxiliary predicates -/

/-- Non-decreasing order of two records: the second is not smaller than the
first under `Node::operator<`. -/
def Node.le (a b : Node) : Prop := Node.lt b a = false

/-- The list is in non-decreasing order of `fullName`. -/
def SortedByFullName (l : List Node) : Prop := l.Pairwise Node.le

/-- The table of unit names, indexed by the power of 1024. -/
def unitNames : List String := ["B", "KiB", "MiB", "GiB", "TiB", "PiB", "EiB"]

/-- While a subscription is active the base address is the selected topic
without its suffix, and records are held only while a subscription is active. -/
def BaseInv (g : GUI) : Prop :=
  (g.m_sub.isSome = true → g.m_base ++ suffix = g.m_topic)
    ∧ (g.m_nodes ≠ [] → g.m_sub.isSome = true)

/-! ## Sample data -/

/-- A node entry `ns/name` that is running and uses `memory` bytes. -/
def sampleEntry (ns name : String) (memory : Nat) : NodeState :=
  { name := bytes name, ns := bytes ns, state := 1, restart_count := 0,
    user_load := 0, system_load := 0, memory := memory }

/-- A snapshot that lists the same node twice. -/
def duplicateSnapshot : State :=
  { stamp := ⟨100, 0⟩
    nodes := [sampleEntry "robot" "camera" 2048, sampleEntry "robot" "camera" 2048] }

/-- A snapshot whose header stamp was left at zero. -/
def unstampedSnapshot : State :=
  { stamp := ⟨0, 0⟩
    nodes := [sampleEntry "robot" "camera" 2048] }

/-- A snapshot stamped in the year 2096. -/
def lateSnapshot : State :=
  { stamp := ⟨4000000000, 0⟩
    nodes := [sampleEntry "robot" "camera" 2048] }

/-- A session in which the topic `/rosmon/state` is selected and the snapshot
with the zero header stamp is then delivered. -/
def unstampedSession : List Event :=
  [Event.paint (some (bytes "/rosmon/state")) ⟨0, 0⟩, Event.deliver unstampedSnapshot]

/-! ## The string order -/

theorem strLt_irrefl (a : CxxString) : strLt a a = false := by
  induction a with
  | nil => rfl
  | cons x xs ih => simp [strLt, ih]

theorem strLt_asymm : ∀ a b : CxxString, strLt a b = true → strLt b a = false
  | [], [] => by simp [strLt]
  | [], _ :: _ => by simp [strLt]
  | _ :: _, [] => by simp [strLt]
  | x :: xs, y :: ys => by
    intro h
    simp only [strLt] at h ⊢
    by_cases hxy : x < y
    · have hyx : ¬ y < x := lt_asymm hxy
      simp [hxy, hyx]
    · by_cases hyx : y < x
      · simp [hxy, hyx] at h
      · simp only [hxy, hyx, if_false] at h ⊢
        exact strLt_asymm xs ys h

theorem strLt_trans : ∀ a b c : CxxString,
    strLt a b = true → strLt b c = true → strLt a c = true
  | [], [], _ => by simp [strLt]
  | [], _ :: _, [] => by simp [strLt]
  | [], _ :: _, _ :: _ => by simp [strLt]
  | _ :: _, [], _ => by simp [strLt]
  | _ :: _, _ :: _, [] => by simp [strLt]
  | x :: xs, y :: ys, z :: zs => by
    intro h1 h2
    simp only [strLt] at h1 h2 ⊢
    by_cases hxy : x < y
    · by_cases hyz : y < z
      · simp [lt_trans hxy hyz]
      · by_cases hzy : z < y
        · simp [hyz, hzy] at h2
        · have hyz' : y = z := le_antisymm (not_lt.mp hzy) (not_lt.mp hyz)
          subst hyz'
          simp [hxy]
    · by_cases hyx : y < x
      · simp [hxy, hyx] at h1
      · have hxy' : x = y := le_antisymm (not_lt.mp hyx) (not_lt.mp hxy)
        subst hxy'
        simp only [hxy, if_false] at h1
        by_cases hxz : x < z
        · simp [hxz]
        · by_cases hzx : z < x
          · simp [hxz, hzx] at h2
          · simp only [hxz, hzx, if_false] at h2 ⊢
            exact strLt_trans xs ys zs h1 h2

theorem strLt_connex : ∀ a b : CxxString,
    strLt a b = false → strLt b a = false → a = b
  | [], [] => by simp
  | [], _ :: _ => by simp [strLt]
  | _ :: _, [] => by simp [strLt]
  | x :: xs, y :: ys => by
    intro h1 h2
    simp only [strLt] at h1 h2
    by_cases hxy : x < y
    · simp [hxy] at h1
    · by_cases hyx : y < x
      · simp [hyx] at h2
      · have hxy' : x = y := le_antisymm (not_lt.mp hyx) (not_lt.mp hxy)
        subst hxy'
        simp only [hxy, if_false] at h1 h2
        rw [strLt_connex xs ys h1 h2]

/-! ## The sort -/

theorem linearInsert_perm (x : Node) : ∀ l : List Node, (linearInsert x l).Perm (x :: l)
  | [] => List.Perm.refl _
  | e :: es => by
    unfold linearInsert
    split
    · exact List.Perm.refl _
    · exact ((linearInsert_perm x es).cons e).trans (List.Perm.swap x e es)

theorem linearInsert_sorted (x : Node) :
    ∀ l : List Node, SortedByFullName l → SortedByFullName (linearInsert x l)
  | [], _ => by simp [linearInsert, SortedByFullName]
  | e :: es, h => by
    unfold SortedByFullName at h ⊢
    rw [List.pairwise_cons] at h
    unfold linearInsert
    split
    · rename_i hlt
      refine List.pairwise_cons.mpr ⟨?_, List.pairwise_cons.mpr h⟩
      intro y hy
      rcases List.mem_cons.mp hy with rfl | hy
      · exact strLt_asymm _ _ hlt
      · have hey : strLt y.fullName e.fullName = false := h.1 y hy
        unfold Node.le Node.lt
        by_contra hc
        have hyx : strLt y.fullName x.fullName = true := by simpa using hc
        have := strLt_trans _ _ _ hyx hlt
        simp [hey] at this
    · rename_i hlt
      refine List.pairwise_cons.mpr ⟨?_, linearInsert_sorted x es h.2⟩
      intro y hy
      rcases List.mem_cons.mp ((linearInsert_perm x es).subset hy) with rfl | hy
      · unfold Node.le; simpa using hlt
      · exact h.1 y hy

theorem foldl_linearInsert_perm : ∀ (l acc : List Node),
    (l.foldl (fun acc x => linearInsert x acc) acc).Perm (acc ++ l)
  | [], acc => by simp
  | x :: xs, acc => by
    simp only [List.foldl_cons]
    refine (foldl_linearInsert_perm xs (linearInsert x acc)).trans ?_
    refine ((linearInsert_perm x acc).append_right xs).trans ?_
    simpa using (@List.perm_middle _ x acc xs).symm

theorem foldl_linearInsert_sorted : ∀ (l acc : List Node), SortedByFullName acc →
    SortedByFullName (l.foldl (fun acc x => linearInsert x acc) acc)
  | [], _, h => h
  | x :: xs, acc, h => by
    simp only [List.foldl_cons]
    exact foldl_linearInsert_sorted xs _ (linearInsert_sorted x acc h)

theorem stdSort_perm (l : List Node) : (stdSort l).Perm l := by
  simpa [stdSort] using foldl_linearInsert_perm l []

theorem stdSort_sorted (l : List Node) : SortedByFullName (stdSort l) :=
  foldl_linearInsert_sorted l [] List.Pairwise.nil

/-- Two lists in non-decreasing order of `fullName` that hold the same records,
no two of which share a `fullName`, are the same list. -/
theorem sorted_perm_unique {l₁ l₂ : List Node} (hp : l₁.Perm l₂)
    (h₁ : SortedByFullName l₁) (h₂ : SortedByFullName l₂)
    (hd : (l₁.map Node.fullName).Nodup) : l₁ = l₂ := by
  have hd₂ : (l₂.map Node.fullName).Nodup := (hp.map Node.fullName).nodup_iff.mp hd
  have strict : ∀ l : List Node, SortedByFullName l → (l.map Node.fullName).Nodup →
      l.Pairwise (fun a b => Node.lt a b = true) := by
    intro l hs hn
    have hn' : l.Pairwise (fun a b => a.fullName ≠ b.fullName) := by
      simpa [List.Nodup, List.pairwise_map] using hn
    refine (hs.and hn').imp ?_
    rintro a b ⟨hle, hne⟩
    unfold Node.le Node.lt at hle
    unfold Node.lt
    by_contra hc
    exact hne (strLt_connex _ _ (by simpa using hc) hle)
  haveI : IsAntisymm Node (fun a b => Node.lt a b = true) :=
    ⟨fun a b hab hba => by
      have := strLt_asymm _ _ hab
      unfold Node.lt at hba
      simp [this] at hba⟩
  exact List.eq_of_perm_of_sorted hp (strict l₁ h₁ hd) (strict l₂ h₂ hd₂)

/-! ## Leading zeros and the power of 1024 -/

theorem clzAux_spec : ∀ (i v : Nat), 0 < v → v < 2 ^ i →
    clzAux i v < i ∧ 2 ^ (i - 1 - clzAux i v) ≤ v ∧ v < 2 ^ (i - clzAux i v)
  | 0, v, h0, h => by simp at h; omega
  | i + 1, v, h0, h => by
    unfold clzAux
    split
    · rename_i hb
      have hge : 2 ^ i ≤ v := by
        by_contra hc
        have : v / 2 ^ i = 0 := Nat.div_eq_of_lt (by omega)
        simp [this] at hb
      refine ⟨by omega, by simpa using hge, by simpa using h⟩
    · rename_i hb
      have hlt2 : v / 2 ^ i < 2 := by
        rw [Nat.div_lt_iff_lt_mul (by positivity)]
        rw [pow_succ] at h
        omega
      have hz : v / 2 ^ i = 0 := by
        generalize v / 2 ^ i = q at hb hlt2
        omega
      have hlt : v < 2 ^ i := by
        by_contra hc
        have : 1 ≤ v / 2 ^ i := (Nat.one_le_div_iff (by positivity)).mpr (by omega)
        omega
      obtain ⟨h1, h2, h3⟩ := clzAux_spec i v h0 hlt
      refine ⟨by omega, ?_, ?_⟩
      · have : i + 1 - 1 - (1 + clzAux i v) = i - 1 - clzAux i v := by omega
        rw [this]; exact h2
      · have : i + 1 - (1 + clzAux i v) = i - clzAux i v := by omega
        rw [this]; exact h3

/-- For a non-zero 64-bit value, `63 - clz(v)` is the position of the highest
set bit. -/
theorem countLeadingZeroBits_spec (v : Nat) (h0 : 0 < v) (h : v < 2 ^ 64) :
    countLeadingZeroBits v ≤ 63 ∧ 2 ^ (63 - countLeadingZeroBits v) ≤ v
      ∧ v < 2 ^ (63 - countLeadingZeroBits v + 1) := by
  obtain ⟨h1, h2, h3⟩ := clzAux_spec 64 v h0 h
  unfold countLeadingZeroBits
  refine ⟨by omega, by simpa using h2, ?_⟩
  have : 63 - clzAux 64 v + 1 = 64 - clzAux 64 v := by omega
  rw [this]; exact h3

theorem dataSizePower_le (B : Nat) : dataSizePower B ≤ 6 := by
  unfold dataSizePower
  split
  · omega
  · omega

theorem dataSizePower_bounds (B : Nat) (h0 : 0 < B) (h : B < 2 ^ 64) :
    1024 ^ dataSizePower B ≤ B ∧ B < 1024 ^ (dataSizePower B + 1) := by
  obtain ⟨_, h2, h3⟩ := countLeadingZeroBits_spec B h0 h
  have hp : dataSizePower B = (63 - countLeadingZeroBits B) / 10 := by
    unfold dataSizePower; rw [if_neg (by omega)]
  rw [hp]
  generalize 63 - countLeadingZeroBits B = e at h2 h3
  have e1 : (1024 : Nat) = 2 ^ 10 := by norm_num
  rw [e1, ← pow_mul, ← pow_mul]
  constructor
  · exact le_trans (Nat.pow_le_pow_right (by norm_num) (by omega)) h2
  · exact lt_of_lt_of_le h3 (Nat.pow_le_pow_right (by norm_num) (by omega))

theorem dataSizePower_eq_zero_iff (B : Nat) (h : B < 2 ^ 64) :
    dataSizePower B = 0 ↔ B < 1024 := by
  rcases Nat.eq_zero_or_pos B with rfl | h0
  · simp [dataSizePower]
  · obtain ⟨h1, h2⟩ := dataSizePower_bounds B h0 h
    constructor
    · intro hz
      rw [hz] at h2
      simpa using h2
    · intro hlt
      by_contra hne
      have : 1024 ^ 1 ≤ 1024 ^ dataSizePower B :=
        Nat.pow_le_pow_right (by norm_num) (by omega)
      omega

theorem dataSizeUnit_eq_table (p : Nat) (hp : p ≤ 6) :
    some (dataSizeUnit p) = unitNames[p]? := by
  interval_cases p <;> decide

/-! ## The printed text -/

theorem digitChar_ne_space : ∀ m, m < 10 → Nat.digitChar m ≠ ' ' := by
  decide

theorem toDigitsCore_ne_space : ∀ (fuel n : Nat) (ds : List Char),
    (∀ c ∈ ds, c ≠ ' ') → ∀ c ∈ Nat.toDigitsCore 10 fuel n ds, c ≠ ' '
  | 0, _, ds, h => by simpa [Nat.toDigitsCore] using h
  | fuel + 1, n, ds, h => by
    have hds : ∀ c ∈ Nat.digitChar (n % 10) :: ds, c ≠ ' ' := by
      intro c hc
      rcases List.mem_cons.mp hc with rfl | hc
      · exact digitChar_ne_space _ (Nat.mod_lt _ (by norm_num))
      · exact h c hc
    unfold Nat.toDigitsCore
    simp only
    split
    · exact hds
    · exact toDigitsCore_ne_space fuel _ _ hds

theorem repr_ne_space (k : Nat) : ∀ c ∈ (Nat.repr k).data, c ≠ ' ' := by
  unfold Nat.repr Nat.toDigits
  simpa [List.asString] using toDigitsCore_ne_space (k + 1) k [] (by simp)

theorem renderFixed_ne_space (N P : Nat) : ∀ c ∈ (renderFixed N P).data, c ≠ ' ' := by
  intro c hc
  unfold renderFixed at hc
  simp only at hc
  split at hc
  · exact repr_ne_space _ c hc
  · simp only [padDigits, String.data_append, List.mem_append, List.mem_replicate] at hc
    rcases hc with (hc | hc) | hc | hc
    · exact repr_ne_space _ c hc
    · have : c = '.' := by simpa using hc
      rw [this]; decide
    · rw [hc.2]; decide
    · exact repr_ne_space _ c hc

theorem unitOf_append (num unit : String) (h : ∀ c ∈ num.data, c ≠ ' ') :
    unitOf (num ++ " " ++ unit) = unit ∧ numberOf (num ++ " " ++ unit) = num := by
  have hd : (num ++ " " ++ unit).data = num.data ++ ' ' :: unit.data := by
    simp [String.data_append]
  have hall : ∀ c ∈ num.data, (fun c => c != ' ') c = true := by
    intro c hc; simpa using h c hc
  constructor
  · unfold unitOf
    rw [hd, List.dropWhile_append_of_pos hall]
    simp [List.dropWhile]
  · unfold numberOf
    rw [hd, List.takeWhile_append_of_pos hall]
    simp [List.takeWhile]

theorem dataSizeVal_eq (B : Nat) :
    dataSizeVal B = (toDouble B, 1024 ^ dataSizePower B) := by
  unfold dataSizeVal
  simp only
  split
  · rename_i hp
    have hB : B ≠ 0 := by
      rintro rfl
      simp [dataSizePower] at hp
    simp [dataSizeBase, hB]
  · rename_i hp
    have : dataSizePower B = 0 := by simpa using hp
    simp [this]

theorem formattedDataSize_eq (B P : Nat) :
    formattedDataSize B P =
      renderFixed (fixedScaled (toDouble B) (1024 ^ dataSizePower B) P) P
        ++ " " ++ dataSizeUnit (dataSizePower B) := by
  unfold formattedDataSize formatFixed
  simp [dataSizeVal_eq]

theorem roundHalfEven_nearest (n d : Nat) (hd : 0 < d) :
    2 * (roundHalfEven n d * d) ≤ 2 * n + d ∧ 2 * n ≤ 2 * (roundHalfEven n d * d) + d := by
  have h1 := Nat.div_add_mod n d
  have h2 := Nat.mod_lt n hd
  have h3 : (n / d + 1) * d = d * (n / d) + d := by ring
  have h4 : n / d * d = d * (n / d) := by ring
  unfold roundHalfEven
  simp only
  split_ifs <;> simp only [h3, h4] <;>
    generalize d * (n / d) = qd at h1 <;> generalize n % d = r at * <;> omega

theorem toDouble_exact (B : Nat) (h : B < 2 ^ 53) : toDouble B = B := by
  unfold toDouble
  rw [if_pos h]

/-! ## Time arithmetic -/

theorem fits_iff (t : Int) :
    Duration.fits t = true ↔ -2147483648000000000 ≤ t ∧ t < 2147483648000000000 := by
  simp only [Duration.fits, decide_eq_true_eq]
  omega

theorem stale_iff (t : Int) :
    Duration.gt ⟨t / 1000000000, t % 1000000000⟩ staleAfter = true ↔ t > 5000000000 := by
  simp only [Duration.gt, staleAfter, Bool.or_eq_true, Bool.and_eq_true, decide_eq_true_eq]
  omega

theorem subscribe_stamp (g : GUI) : (subscribe g).m_stamp = Time.zero := by
  unfold subscribe
  simp only
  split_ifs <;> rfl

theorem subscribe_nodes (g : GUI) : (subscribe g).m_nodes = [] := by
  unfold subscribe
  simp only
  split_ifs <;> rfl

theorem step_stamp_zero (g : GUI) (e : Event) (hg : g.m_stamp = Time.zero)
    (he : e.isDeliver = false) : (step g e).m_stamp = Time.zero := by
  cases e with
  | paint selected now =>
    cases selected with
    | none => simp [step, paint, hg]
    | some t => simp [step, paint, subscribe_stamp]
  | setState settings =>
    simp only [step, setState]
    split
    · exact subscribe_stamp _
    · exact hg
  | deliver msg => simp [Event.isDeliver] at he

theorem foldl_step_stamp_zero : ∀ (evs : List Event) (g : GUI), g.m_stamp = Time.zero →
    (∀ e ∈ evs, e.isDeliver = false) → (evs.foldl step g).m_stamp = Time.zero
  | [], _, hg, _ => hg
  | e :: es, g, hg, h => by
    simp only [List.foldl_cons]
    exact foldl_step_stamp_zero es _
      (step_stamp_zero g e hg (h e (List.mem_cons_self _ _)))
      (fun e' he' => h e' (List.mem_cons_of_mem _ he'))

/-! ## Properties of `handleState` -/

theorem handleState_nodes (g : GUI) (s : State) :
    (handleState g s).m_nodes = stdSort (s.nodes.map Node.ofState) := rfl

theorem handleState_names_perm (g : GUI) (s : State) :
    ((handleState g s).m_nodes.map Node.fullName).Perm
      (s.nodes.map (fun e => e.ns ++ bytes "/" ++ e.name)) := by
  have h := (stdSort_perm (s.nodes.map Node.ofState)).map Node.fullName
  rw [handleState_nodes]
  refine h.trans ?_
  rw [List.map_map]
  exact List.Perm.refl _

/-- C1: after `handleState(S1)` followed by `handleState(S2)`, from any panel
state, `m_nodes` is a permutation of the records built from the entries of
`S2` alone, each with `fullName = ns + "/" + name`, and is in non-decreasing
byte-wise lexicographic order of `fullName`. -/
theorem handleState_twice_sorted_perm (g : GUI) (S1 S2 : State) :
    (handleState (handleState g S1) S2).m_nodes.Perm (S2.nodes.map Node.ofState)
    ∧ (∀ r ∈ (handleState (handleState g S1) S2).m_nodes,
        ∃ e ∈ S2.nodes, r.nodeState = e ∧ r.fullName = e.ns ++ bytes "/" ++ e.name)
    ∧ (handleState (handleState g S1) S2).m_nodes.Pairwise
        (fun a b => strLt b.fullName a.fullName = false) := by
  refine ⟨stdSort_perm _, ?_, stdSort_sorted _⟩
  intro r hr
  have hr' : r ∈ S2.nodes.map Node.ofState := (stdSort_perm _).subset hr
  obtain ⟨e, he, rfl⟩ := List.mem_map.mp hr'
  exact ⟨e, he, rfl, rfl⟩

/-- C9, as stated, fails: a snapshot that lists `robot/camera` twice leaves two
records with that `fullName` in `m_nodes`. -/
theorem handleState_duplicate_fullName :
    ¬ ((handleState GUI.init duplicateSnapshot).m_nodes.map Node.fullName).Nodup := by
  decide

/-- C9, amended: after `handleState(snapshot)` the `fullName`s held in
`m_nodes` are those of the snapshot, each as often as it occurs there; no
`fullName` appears twice when the snapshot's are pairwise distinct. -/
theorem handleState_fullNames (g : GUI) (s : State) :
    (∀ f, f ∈ (handleState g s).m_nodes.map Node.fullName
        ↔ f ∈ s.nodes.map (fun e => e.ns ++ bytes "/" ++ e.name))
    ∧ (∀ f, ((handleState g s).m_nodes.map Node.fullName).count f
        = (s.nodes.map (fun e => e.ns ++ bytes "/" ++ e.name)).count f)
    ∧ (handleState g s).m_nodes.length = s.nodes.length
    ∧ ((s.nodes.map (fun e => e.ns ++ bytes "/" ++ e.name)).Nodup
        → ((handleState g s).m_nodes.map Node.fullName).Nodup) := by
  have h := handleState_names_perm g s
  refine ⟨fun f => h.mem_iff, fun f => h.countP_eq _, ?_, fun hd => h.nodup_iff.mpr hd⟩
  simpa using h.length_eq

/-- C10: two snapshots that hold the same entries in different orders, with
pairwise distinct `fullName`s, leave the identical `m_nodes` sequence, whatever
the panel states they arrive in. The sequence is the only arrangement of the
records in non-decreasing order of `fullName`, so it is fixed by the set of
nodes alone. -/
theorem handleState_order_independent (g₁ g₂ : GUI) (s₁ s₂ : State)
    (hp : s₁.nodes.Perm s₂.nodes)
    (hd : (s₁.nodes.map (fun e => e.ns ++ bytes "/" ++ e.name)).Nodup) :
    (handleState g₁ s₁).m_nodes = (handleState g₂ s₂).m_nodes
    ∧ (∀ l : List Node, l.Perm (s₂.nodes.map Node.ofState) →
        l.Pairwise (fun a b => strLt b.fullName a.fullName = false) →
        l = (handleState g₁ s₁).m_nodes) := by
  have hnd : ((handleState g₁ s₁).m_nodes.map Node.fullName).Nodup :=
    (handleState_names_perm g₁ s₁).nodup_iff.mpr hd
  have h₁ : (handleState g₁ s₁).m_nodes.Perm (s₂.nodes.map Node.ofState) :=
    (stdSort_perm _).trans (hp.map Node.ofState)
  refine ⟨sorted_perm_unique (h₁.trans (stdSort_perm _).symm) (stdSort_sorted _)
    (stdSort_sorted _) hnd, ?_⟩
  intro l hl hs
  exact (sorted_perm_unique (h₁.trans hl.symm) (stdSort_sorted _) hs hnd).symm

/-- C10 at a concrete input: the entries `robot/camera` and `robot/arm`
delivered in both orders. -/
theorem handleState_order_independent_witness :
    (handleState GUI.init
        ⟨⟨100, 0⟩, [sampleEntry "robot" "camera" 2048, sampleEntry "robot" "arm" 0]⟩).m_nodes
      = (handleState GUI.init
        ⟨⟨200, 0⟩, [sampleEntry "robot" "arm" 0, sampleEntry "robot" "camera" 2048]⟩).m_nodes :=
  (handleState_order_independent _ _
    ⟨⟨100, 0⟩, [sampleEntry "robot" "camera" 2048, sampleEntry "robot" "arm" 0]⟩
    ⟨⟨200, 0⟩, [sampleEntry "robot" "arm" 0, sampleEntry "robot" "camera" 2048]⟩
    (List.Perm.swap _ _ _) (by decide)).1

/-! ## The has-data predicate and freshness -/

/-- C4, as stated, fails: after a topic is selected and a snapshot with a zero
header stamp is delivered, the panel holds a record and still reports no data. -/
theorem hasData_false_after_unstamped :
    hasData (run unstampedSession) = false
    ∧ (run unstampedSession).m_sub = some (bytes "/rosmon/state")
    ∧ (run unstampedSession).m_nodes ≠ []
    ∧ hasData (handleState GUI.init unstampedSnapshot) = false := by
  decide

/-- C4, amended: the has-data predicate is false in the initial state and
after every `subscribe()`; after `handleState(snapshot)` it is true exactly
when the snapshot's header stamp is not the zero time. -/
theorem hasData_spec :
    hasData GUI.init = false
    ∧ (∀ g : GUI, hasData (subscribe g) = false)
    ∧ (∀ (g : GUI) (s : State), hasData (handleState g s) = true ↔ s.stamp ≠ Time.zero) := by
  refine ⟨by decide, fun g => ?_, fun g s => ?_⟩
  · simp [hasData, subscribe_stamp]
  · simp [hasData, handleState]

theorem paint_view (g : GUI) (selected : Option CxxString) (now : Time) :
    (paint g selected now).2 =
      if (paint g selected now).1.m_stamp = Time.zero then View.noMessage
      else
        match Time.sub now (paint g selected now).1.m_stamp with
        | some d => View.table (Duration.gt d staleAfter) (paint g selected now).1.m_nodes
        | none => View.outOfRange := by
  unfold paint
  simp only
  generalize (match selected with
    | some t => subscribe { g with m_topic := t }
    | none => g) = g'
  by_cases hz : g'.m_stamp = Time.zero
  · simp [hz]
  · cases hs : Time.sub now g'.m_stamp <;> simp [hz, hs]

theorem paint_fst_none (g : GUI) (now : Time) : (paint g none now).1 = g := by
  unfold paint
  simp only
  by_cases hz : g.m_stamp = Time.zero
  · simp [hz]
  · cases hs : Time.sub now g.m_stamp <;> simp [hz, hs]

theorem paint_fst_some (g : GUI) (t : CxxString) (now : Time) :
    (paint g (some t) now).1 = subscribe { g with m_topic := t } := by
  unfold paint
  simp only
  generalize subscribe { g with m_topic := t } = g'
  by_cases hz : g'.m_stamp = Time.zero
  · simp [hz]
  · cases hs : Time.sub now g'.m_stamp <;> simp [hz, hs]

theorem enabled_table (b : Bool) (rows : List Node) :
    (View.table b rows).enabled = !b := by
  cases b <;> rfl

theorem enabled_of_difference (t : Int) (rows : List Node) :
    (match Duration.fromNSec t with
      | some d => View.table (Duration.gt d staleAfter) rows
      | none => View.outOfRange).enabled = true
      ↔ -2147483648000000000 ≤ t ∧ t ≤ 5000000000 := by
  have hs := stale_iff t
  have hf := fits_iff t
  unfold Duration.fromNSec
  cases hfit : Duration.fits t
  · rw [hfit] at hf
    simp only [Bool.false_eq_true, if_false, View.enabled]
    constructor
    · intro h; cases h
    · intro h
      have : ¬ (-2147483648000000000 ≤ t ∧ t < 2147483648000000000) := by
        rw [← hf]; simp
      exact absurd ⟨h.1, by omega⟩ this
  · rw [hfit] at hf
    have hr := hf.mp rfl
    simp only [if_true, enabled_table]
    cases hgt : Duration.gt ⟨t / 1000000000, t % 1000000000⟩ staleAfter
    · have : ¬ t > 5000000000 := by
        rw [← hs, hgt]; simp
      simp only [Bool.not_false, true_iff]
      exact ⟨hr.1, by omega⟩
    · have := hs.mp hgt
      simp only [Bool.not_true, Bool.false_eq_true, false_iff]
      omega

theorem paint_enabled (g : GUI) (selected : Option CxxString) (now : Time) :
    (paint g selected now).2.enabled = true ↔
      (paint g selected now).1.m_stamp ≠ Time.zero
        ∧ -2147483648000000000
            ≤ (now.toNSec : Int) - ((paint g selected now).1.m_stamp.toNSec : Int)
        ∧ (now.toNSec : Int) - ((paint g selected now).1.m_stamp.toNSec : Int)
            ≤ 5000000000 := by
  rw [paint_view]
  by_cases hz : (paint g selected now).1.m_stamp = Time.zero
  · simp [hz, View.enabled]
  · rw [if_neg hz]
    unfold Time.sub
    rw [enabled_of_difference]
    simp [hz]

/-- The out-of-range case at a concrete input: with a stamp of 4000000000 s
and `now` at 1790000000 s the difference is below 5 s, no `ros::Duration`
holds it, and the table is not drawn. -/
theorem paint_out_of_range_example :
    (run [Event.paint (some (bytes "/rosmon/state")) ⟨0, 0⟩,
        Event.deliver lateSnapshot]).m_stamp = ⟨4000000000, 0⟩
    ∧ Time.sub ⟨1790000000, 0⟩ ⟨4000000000, 0⟩ = none
    ∧ (paint (run [Event.paint (some (bytes "/rosmon/state")) ⟨0, 0⟩,
        Event.deliver lateSnapshot]) none ⟨1790000000, 0⟩).2 = View.outOfRange := by
  decide

/-- C5, as stated, fails: a snapshot with a zero header stamp has been
received and `now`, 3 s, is no more than 5 s past that stamp, yet `paint`
draws "No message" instead of the enabled table. -/
theorem paint_no_message_after_unstamped :
    (run unstampedSession).m_nodes ≠ []
    ∧ Time.sub ⟨3, 0⟩ (run unstampedSession).m_stamp = some ⟨3, 0⟩
    ∧ Duration.gt ⟨3, 0⟩ staleAfter = false
    ∧ (paint (run unstampedSession) none ⟨3, 0⟩).2 = View.noMessage
    ∧ (paint (run unstampedSession) none ⟨3, 0⟩).2.enabled = false := by
  decide

/-- C5, amended: in every panel state and at every time `now`, `paint` draws
the table enabled exactly when `m_stamp` is not the zero time, the difference
`now - m_stamp` is one a `ros::Duration` holds (at least `-2^31` seconds) and
it is at most 5 seconds. With a non-zero stamp, a difference of exactly
5.000 s is fresh and 5.001 s is not; a panel that never received a snapshot is
never fresh. -/
theorem paint_fresh_iff (g : GUI) (selected : Option CxxString) (now : Time) :
    ((paint g selected now).2.enabled = true ↔
      (paint g selected now).1.m_stamp ≠ Time.zero
        ∧ -2147483648000000000
            ≤ (now.toNSec : Int) - ((paint g selected now).1.m_stamp.toNSec : Int)
        ∧ (now.toNSec : Int) - ((paint g selected now).1.m_stamp.toNSec : Int)
            ≤ 5000000000)
    ∧ (g.m_stamp ≠ Time.zero → now.toNSec = g.m_stamp.toNSec + 5000000000 →
        (paint g none now).2.enabled = true)
    ∧ (g.m_stamp ≠ Time.zero → now.toNSec = g.m_stamp.toNSec + 5001000000 →
        (paint g none now).2.enabled = false)
    ∧ (∀ evs : List Event, (∀ e ∈ evs, e.isDeliver = false) →
        (paint (run evs) selected now).2.enabled = false) := by
  refine ⟨paint_enabled g selected now, ?_, ?_, ?_⟩
  · intro hs hn
    rw [paint_enabled, paint_fst_none]
    exact ⟨hs, by omega, by omega⟩
  · intro _ hn
    have h := paint_enabled g none now
    rw [paint_fst_none] at h
    cases he : (paint g none now).2.enabled
    · rfl
    · have := (h.mp he).2.2
      omega
  · intro evs hevs
    have hrun : (run evs).m_stamp = Time.zero :=
      foldl_step_stamp_zero evs GUI.init rfl hevs
    have hz : (paint (run evs) selected now).1.m_stamp = Time.zero := by
      cases selected with
      | none => rw [paint_fst_none]; exact hrun
      | some t => rw [paint_fst_some]; exact subscribe_stamp _
    rw [paint_view, if_pos hz]
    rfl

/-! ## Subscription -/

theorem suffix_bytes : suffix = [47, 115, 116, 97, 116, 101] := by decide

theorem suffix_length : suffix.length = 6 := by decide

theorem subscribe_sub (g : GUI) :
    (subscribe g).m_sub = if suffix <:+ g.m_topic then some g.m_topic else none := by
  have hiff : suffix <:+ g.m_topic ↔
      ¬ (g.m_topic.length < suffix.length
        ∨ g.m_topic.drop (g.m_topic.length - suffix.length) ≠ suffix) := by
    constructor
    · intro h
      have hl := h.length_le
      have hd := List.suffix_iff_eq_drop.mp h
      push_neg
      exact ⟨hl, hd.symm⟩
    · intro h
      push_neg at h
      exact List.suffix_iff_eq_drop.mpr h.2.symm
  unfold subscribe
  simp only
  by_cases hs : suffix <:+ g.m_topic
  · have hne : g.m_topic ≠ [] := by
      rintro h0
      have := hs.length_le
      rw [h0, suffix_length] at this
      simp at this
    have hcond := hiff.mp hs
    simp only [List.isEmpty_iff, hne, if_false, hcond, hs, if_true]
  · have hcond : g.m_topic.length < suffix.length
        ∨ g.m_topic.drop (g.m_topic.length - suffix.length) ≠ suffix := by
      by_contra hc
      exact hs (hiff.mpr hc)
    simp only [hcond, hs, if_true, if_false]
    split_ifs <;> rfl

theorem subscribe_base (g : GUI) (h : suffix <:+ g.m_topic) :
    (subscribe g).m_base ++ suffix = g.m_topic ∧ (subscribe g).m_topic = g.m_topic := by
  have hl := h.length_le
  have hd := List.suffix_iff_eq_drop.mp h
  have hne : g.m_topic ≠ [] := by
    rintro h0
    rw [h0, suffix_length] at hl
    simp at hl
  unfold subscribe
  simp only [List.isEmpty_iff, hne, if_false]
  rw [if_neg (by push_neg; exact ⟨hl, hd.symm⟩)]
  refine ⟨?_, rfl⟩
  show g.m_topic.take (g.m_topic.length - suffix.length) ++ suffix = g.m_topic
  have := List.take_append_drop (g.m_topic.length - suffix.length) g.m_topic
  rw [← hd] at this
  exact this

/-- C6: `subscribe()` establishes a subscription exactly when `m_topic` ends
with `"/state"`; for every other topic (the empty one and those shorter than
the suffix included) and every prior state, no subscription is established,
`m_nodes` is empty and `m_stamp` is the zero sentinel. -/
theorem subscribe_suffix (g : GUI) :
    ((subscribe g).m_sub.isSome = true ↔ suffix <:+ g.m_topic)
    ∧ ((subscribe g).m_sub.isSome = true ↔ ∃ base, g.m_topic = base ++ bytes "/state")
    ∧ (¬ suffix <:+ g.m_topic →
        (subscribe g).m_sub = none ∧ (subscribe g).m_nodes = []
          ∧ (subscribe g).m_stamp = Time.zero ∧ hasData (subscribe g) = false)
    ∧ (g.m_topic.length < 6 → (subscribe g).m_sub = none) := by
  have h1 : (subscribe g).m_sub.isSome = true ↔ suffix <:+ g.m_topic := by
    rw [subscribe_sub]
    split_ifs with h <;> simp [h]
  refine ⟨h1, ?_, ?_, ?_⟩
  · rw [h1]
    constructor
    · rintro ⟨b, hb⟩
      exact ⟨b, hb.symm⟩
    · rintro ⟨b, hb⟩
      exact ⟨b, hb.symm⟩
  · intro hn
    refine ⟨?_, subscribe_nodes g, subscribe_stamp g, ?_⟩
    · rw [subscribe_sub, if_neg hn]
    · simp [hasData, subscribe_stamp]
  · intro hlen
    have hn : ¬ suffix <:+ g.m_topic := by
      intro h
      have := h.length_le
      rw [suffix_length] at this
      omega
    rw [subscribe_sub, if_neg hn]

/-! ## The base address -/

theorem subscribe_baseInv (g : GUI) : BaseInv (subscribe g) := by
  refine ⟨fun hs => ?_, fun hn => absurd (subscribe_nodes g) hn⟩
  have hsuf : suffix <:+ g.m_topic := by
    rw [subscribe_sub] at hs
    by_contra hc
    simp [hc] at hs
  obtain ⟨h1, h2⟩ := subscribe_base g hsuf
  rw [h1, h2]

theorem step_baseInv (g : GUI) (e : Event) (hg : BaseInv g) : BaseInv (step g e) := by
  cases e with
  | paint selected now =>
    cases selected with
    | none => simpa [step, paint_fst_none] using hg
    | some t => simpa [step, paint_fst_some] using subscribe_baseInv _
  | setState settings =>
    simp only [step, setState]
    split
    · exact subscribe_baseInv _
    · exact hg
  | deliver msg =>
    simp only [step]
    split
    · rename_i hs
      exact ⟨fun _ => hg.1 hs, fun _ => hs⟩
    · exact hg

theorem foldl_step_baseInv : ∀ (evs : List Event) (g : GUI), BaseInv g →
    BaseInv (evs.foldl step g)
  | [], _, hg => hg
  | e :: es, g, hg => by
    simp only [List.foldl_cons]
    exact foldl_step_baseInv es _ (step_baseInv g e hg)

/-- C7: after any sequence of topic selections, `setState` calls and snapshot
deliveries (deliveries reaching `handleState` only while subscribed), an
active subscription implies `m_base + "/state" = m_topic`, and so does a
non-empty `m_nodes`, which exists only under an active subscription. -/
theorem run_base_is_topic_stem (evs : List Event) :
    ((run evs).m_sub.isSome = true → (run evs).m_base ++ bytes "/state" = (run evs).m_topic)
    ∧ ((run evs).m_nodes ≠ [] → (run evs).m_sub.isSome = true)
    ∧ ((run evs).m_nodes ≠ [] → (run evs).m_base ++ bytes "/state" = (run evs).m_topic) := by
  have h : BaseInv (run evs) :=
    foldl_step_baseInv evs GUI.init ⟨fun hs => by simp [GUI.init] at hs,
      fun hn => by simp [GUI.init] at hn⟩
  exact ⟨h.1, h.2, fun hn => h.1 (h.2 hn)⟩

/-! ## Commands -/

/-- C8: for every node record, action code and behaviour of the channel,
`sendCommand(n, a)` makes exactly one call on the command channel, to
`m_base + "/start_stop"`, with `action = a`, `node` the node's name and `ns`
its namespace; the "Service Failure" popup is opened exactly when that call
reports failure, and no further call follows. -/
theorem sendCommand_once (chan : Channel) (g : GUI) (n : Node) (a : ActionCode)
    (w : Effects) :
    (sendCommand chan g n a.toInt w).calls =
      w.calls ++ [{ address := g.m_base ++ bytes "/start_stop"
                    request := { action := a.toInt, node := n.nodeState.name
                                 ns := n.nodeState.ns } }]
    ∧ ((sendCommand chan g n a.toInt w).popups = w.popups ++ ["Service Failure"] ↔
        chan w.calls { address := g.m_base ++ bytes "/start_stop"
                       request := { action := a.toInt, node := n.nodeState.name
                                    ns := n.nodeState.ns } } = false)
    ∧ ((sendCommand chan g n a.toInt w).popups = w.popups ↔
        chan w.calls { address := g.m_base ++ bytes "/start_stop"
                       request := { action := a.toInt, node := n.nodeState.name
                                    ns := n.nodeState.ns } } = true) := by
  unfold sendCommand
  simp only
  cases h : chan w.calls { address := g.m_base ++ bytes "/start_stop"
                           request := { action := a.toInt, node := n.nodeState.name
                                        ns := n.nodeState.ns } } <;> simp

/-! ## The formatted size -/

theorem dataSizeUnit_eq_B_iff (p : Nat) (hp : p ≤ 6) : dataSizeUnit p = "B" ↔ p = 0 := by
  interval_cases p <;> decide

theorem dataSizeUnit_ne_placeholder (p : Nat) (hp : p ≤ 6) : dataSizeUnit p ≠ "?" := by
  interval_cases p <;> decide

theorem unitOf_formattedDataSize (B P : Nat) :
    unitOf (formattedDataSize B P) = dataSizeUnit (dataSizePower B) := by
  rw [formattedDataSize_eq]
  exact (unitOf_append _ _ (renderFixed_ne_space _ _)).1

/-- C2: for a 64-bit byte count `B` and a precision `P`, the unit printed by
`formattedDataSize(B, P)` is `"B"` exactly when `B < 1024`; otherwise it is the
unit with index `k = (63 - clz(B)) / 10` among KiB(1) .. EiB(6), where `k` is
the largest number with `1024 ^ k <= B`; `k` never exceeds 6 and the
placeholder `"?"` is never printed. -/
theorem formattedDataSize_unit (B P : Nat) (hB : B < 2 ^ 64) :
    (unitOf (formattedDataSize B P) = "B" ↔ B < 1024)
    ∧ (1024 ≤ B →
        dataSizePower B = (63 - countLeadingZeroBits B) / 10
        ∧ 1 ≤ dataSizePower B
        ∧ (∀ k, 1024 ^ k ≤ B ↔ k ≤ dataSizePower B))
    ∧ dataSizePower B ≤ 6
    ∧ some (unitOf (formattedDataSize B P)) = unitNames[dataSizePower B]?
    ∧ unitOf (formattedDataSize B P) ≠ "?" := by
  have hle := dataSizePower_le B
  rw [unitOf_formattedDataSize]
  refine ⟨?_, ?_, hle, dataSizeUnit_eq_table _ hle, dataSizeUnit_ne_placeholder _ hle⟩
  · rw [dataSizeUnit_eq_B_iff _ hle, dataSizePower_eq_zero_iff B hB]
  · intro hge
    have h0 : 0 < B := by omega
    obtain ⟨h1, h2⟩ := dataSizePower_bounds B h0 hB
    refine ⟨?_, ?_, ?_⟩
    · unfold dataSizePower; rw [if_neg (by omega)]
    · by_contra hc
      have : dataSizePower B = 0 := by omega
      rw [dataSizePower_eq_zero_iff B hB] at this
      omega
    · intro k
      constructor
      · intro hk
        by_contra hc
        have : 1024 ^ (dataSizePower B + 1) ≤ 1024 ^ k :=
          Nat.pow_le_pow_right (by norm_num) (by omega)
        omega
      · intro hk
        exact le_trans (Nat.pow_le_pow_right (by norm_num) hk) h1

/-- C2 at a concrete input: 1536 bytes with one decimal. -/
theorem formattedDataSize_unit_witness :
    (1536 : Nat) < 2 ^ 64
    ∧ ((unitOf (formattedDataSize 1536 1) = "B" ↔ 1536 < 1024)
    ∧ (1024 ≤ 1536 →
        dataSizePower 1536 = (63 - countLeadingZeroBits 1536) / 10
        ∧ 1 ≤ dataSizePower 1536
        ∧ (∀ k, 1024 ^ k ≤ 1536 ↔ k ≤ dataSizePower 1536))
    ∧ dataSizePower 1536 ≤ 6
    ∧ some (unitOf (formattedDataSize 1536 1)) = unitNames[dataSizePower 1536]?
    ∧ unitOf (formattedDataSize 1536 1) ≠ "?") :=
  ⟨by norm_num, formattedDataSize_unit 1536 1 (by norm_num)⟩

theorem fixedScaled_roundsTo (n d P : Nat) (hd : 0 < d) :
    RoundsTo (fixedScaled n d P) n d P :=
  roundHalfEven_nearest (n * 10 ^ P) d hd

/-- C3, as stated, fails: for 9024087753343631 bytes and precision 2 the
text is "8.02 PiB", while the byte count divided by `1024 ^ 5` is below 8.015
and rounds to 8.01; no nearest two-decimal number yields the printed text. -/
theorem formattedDataSize_inexact :
    (9024087753343631 : Nat) < 2 ^ 64
    ∧ formattedDataSize 9024087753343631 2 = "8.02 PiB"
    ∧ ¬ ∃ N, RoundsTo N 9024087753343631 (1024 ^ dataSizePower 9024087753343631) 2
        ∧ formattedDataSize 9024087753343631 2
            = renderFixed N 2 ++ " " ++ dataSizeUnit (dataSizePower 9024087753343631) := by
  have hp : dataSizePower 9024087753343631 = 5 := by decide
  refine ⟨by norm_num, by decide, ?_⟩
  rintro ⟨N, ⟨h1, h2⟩, h3⟩
  rw [hp] at h1 h2 h3
  norm_num at h1 h2
  have hN : N = 801 := by omega
  subst hN
  revert h3
  decide

/-- C3, amended: for a byte count below `2 ^ 53` (where the conversion to
`double` is exact) and a precision `P`, the text is the number nearest to
`B / 1024 ^ power` with `P` decimals in fixed-point notation, one space, and
the unit; for every 64-bit byte count the number printed is the one nearest to
`double(B) / 1024 ^ power`. The four sample texts are as listed. -/
theorem formattedDataSize_numeric (B P : Nat) (hB : B < 2 ^ 53) :
    (∃ N, RoundsTo N B (1024 ^ dataSizePower B) P
      ∧ formattedDataSize B P = renderFixed N P ++ " " ++ dataSizeUnit (dataSizePower B)
      ∧ numberOf (formattedDataSize B P) = renderFixed N P
      ∧ unitOf (formattedDataSize B P) = dataSizeUnit (dataSizePower B))
    ∧ (∀ B' P' : Nat, ∃ N, RoundsTo N (toDouble B') (1024 ^ dataSizePower B') P'
      ∧ formattedDataSize B' P'
          = renderFixed N P' ++ " " ++ dataSizeUnit (dataSizePower B'))
    ∧ dataSizePower 0 = 0
    ∧ formattedDataSize 0 2 = "0.00 B"
    ∧ formattedDataSize 1024 2 = "1.00 KiB"
    ∧ formattedDataSize 1536 1 = "1.5 KiB"
    ∧ formattedDataSize 1125899906842624 2 = "1.00 PiB" := by
  have hgen : ∀ B' P' : Nat, ∃ N, RoundsTo N (toDouble B') (1024 ^ dataSizePower B') P'
      ∧ formattedDataSize B' P'
          = renderFixed N P' ++ " " ++ dataSizeUnit (dataSizePower B') :=
    fun B' P' => ⟨_, fixedScaled_roundsTo _ _ _ (by positivity), formattedDataSize_eq B' P'⟩
  refine ⟨?_, hgen, by decide, by decide, by decide, by decide, by decide⟩
  refine ⟨fixedScaled (toDouble B) (1024 ^ dataSizePower B) P, ?_,
    formattedDataSize_eq B P, ?_, unitOf_formattedDataSize B P⟩
  · have := fixedScaled_roundsTo (toDouble B) (1024 ^ dataSizePower B) P (by positivity)
    rw [toDouble_exact B hB] at this ⊢
    exact this
  · rw [formattedDataSize_eq]
    exact (unitOf_append _ _ (renderFixed_ne_space _ _)).2

/-- C3 at a concrete input: 1536 bytes with one decimal. -/
theorem formattedDataSize_numeric_witness :
    (1536 : Nat) < 2 ^ 53
    ∧ ∃ N, RoundsTo N 1536 (1024 ^ dataSizePower 1536) 1
      ∧ formattedDataSize 1536 1 = renderFixed N 1 ++ " " ++ dataSizeUnit (dataSizePower 1536)
      ∧ numberOf (formattedDataSize 1536 1) = renderFixed N 1
      ∧ unitOf (formattedDataSize 1536 1) = dataSizeUnit (dataSizePower 1536) :=
  ⟨by norm_num, (formattedDataSize_numeric 1536 1 (by norm_num)).1⟩

end ImguiRosmon
